import Mathlib

/-!
Verification of the MRG track parser (`src/Parser/mrg_parser.py`).

The parser is embedded shallowly: the byte source is a list of bytes plus a
read position (mirroring a binary file object where `read n` returns up to
`n` bytes and returns the empty string at end of file), `struct.unpack`
failures become a `truncated` error, and the name-scanning loop — which in
the source is `while True` driven by `f.read(1)` — is given explicit fuel so
that its divergence at end of file is expressible as `none`.
-/

set_option maxRecDepth 4000

namespace Gravity

/-- A seekable byte source: the underlying buffer and the current read
position. Models the binary file object used by `MRGParser.parse`. -/
structure ByteSrc where
  buf : List Nat
  pos : Nat
deriving Repr, DecidableEq

/-- Model of `f.read(n)`: returns up to `n` bytes (fewer at end of file)
and advances the position by the number of bytes actually returned. -/
def ByteSrc.read (s : ByteSrc) (n : Nat) : List Nat × ByteSrc :=
  let bs := (s.buf.drop s.pos).take n
  (bs, ⟨s.buf, s.pos + bs.length⟩)

/-- Model of `f.seek(off)`. -/
def ByteSrc.seek (s : ByteSrc) (off : Nat) : ByteSrc :=
  ⟨s.buf, off⟩

/-- The error `struct.unpack` raises when `f.read` returned fewer bytes
than the format requires. -/
inductive Err where
  | truncated
deriving Repr, DecidableEq

/-- Big-endian value of a byte list. -/
def beVal (bs : List Nat) : Nat :=
  bs.foldl (fun a b => a * 256 + b) 0

/-- Two's-complement interpretation of a `w`-bit unsigned value. -/
def toSigned (w : Nat) (v : Nat) : Int :=
  if v < 2 ^ (w - 1) then (v : Int) else (v : Int) - 2 ^ w

/-- Model of `struct.unpack('>I', f.read(4))`: big-endian unsigned 32-bit. -/
def readU32 (s : ByteSrc) : Except Err (Nat × ByteSrc) :=
  let r := s.read 4
  if r.1.length = 4 then .ok (beVal r.1, r.2) else .error .truncated

/-- Model of `struct.unpack('>i', f.read(4))`: big-endian signed 32-bit. -/
def readI32 (s : ByteSrc) : Except Err (Int × ByteSrc) :=
  let r := s.read 4
  if r.1.length = 4 then .ok (toSigned 32 (beVal r.1), r.2) else .error .truncated

/-- Model of `struct.unpack('>H', f.read(2))`: big-endian unsigned 16-bit. -/
def readU16 (s : ByteSrc) : Except Err (Nat × ByteSrc) :=
  let r := s.read 2
  if r.1.length = 2 then .ok (beVal r.1, r.2) else .error .truncated

/-- Model of `struct.unpack('B', f.read(1))`: one unsigned byte. -/
def readU8 (s : ByteSrc) : Except Err (Nat × ByteSrc) :=
  let r := s.read 1
  if r.1.length = 1 then .ok (beVal r.1, r.2) else .error .truncated

/-- Model of `struct.unpack('b', f.read(1))`: one signed byte. -/
def readI8 (s : ByteSrc) : Except Err (Int × ByteSrc) :=
  let r := s.read 1
  if r.1.length = 1 then .ok (toSigned 8 (beVal r.1), r.2) else .error .truncated

/-- The cp1251 codepoints for bytes `0x80`–`0xFF`; position `0x98 - 0x80`
is `none`, the single byte value that codec leaves undefined. -/
def cp1251HighTable : List (Option Nat) :=
  [some 0x402, some 0x403, some 0x201a, some 0x453, some 0x201e, some 0x2026,
   some 0x2020, some 0x2021, some 0x20ac, some 0x2030, some 0x409, some 0x2039,
   some 0x40a, some 0x40c, some 0x40b, some 0x40f, some 0x452, some 0x2018,
   some 0x2019, some 0x201c, some 0x201d, some 0x2022, some 0x2013, some 0x2014,
   none, some 0x2122, some 0x459, some 0x203a, some 0x45a, some 0x45c,
   some 0x45b, some 0x45f, some 0xa0, some 0x40e, some 0x45e, some 0x408,
   some 0xa4, some 0x490, some 0xa6, some 0xa7, some 0x401, some 0xa9,
   some 0x404, some 0xab, some 0xac, some 0xad, some 0xae, some 0x407,
   some 0xb0, some 0xb1, some 0x406, some 0x456, some 0x491, some 0xb5,
   some 0xb6, some 0xb7, some 0x451, some 0x2116, some 0x454, some 0xbb,
   some 0x458, some 0x405, some 0x455, some 0x457, some 0x410, some 0x411,
   some 0x412, some 0x413, some 0x414, some 0x415, some 0x416, some 0x417,
   some 0x418, some 0x419, some 0x41a, some 0x41b, some 0x41c, some 0x41d,
   some 0x41e, some 0x41f, some 0x420, some 0x421, some 0x422, some 0x423,
   some 0x424, some 0x425, some 0x426, some 0x427, some 0x428, some 0x429,
   some 0x42a, some 0x42b, some 0x42c, some 0x42d, some 0x42e, some 0x42f,
   some 0x430, some 0x431, some 0x432, some 0x433, some 0x434, some 0x435,
   some 0x436, some 0x437, some 0x438, some 0x439, some 0x43a, some 0x43b,
   some 0x43c, some 0x43d, some 0x43e, some 0x43f, some 0x440, some 0x441,
   some 0x442, some 0x443, some 0x444, some 0x445, some 0x446, some 0x447,
   some 0x448, some 0x449, some 0x44a, some 0x44b, some 0x44c, some 0x44d,
   some 0x44e, some 0x44f]

/-- Decode a single byte under cp1251; `none` for the undefined byte. -/
def cp1251Char (b : Nat) : Option Char :=
  if b < 0x80 then some (Char.ofNat b)
  else
    match cp1251HighTable[b - 0x80]? with
    | some (some cp) => some (Char.ofNat cp)
    | _ => none

/-- Model of `name_bytes.decode('cp1251', errors='ignore')`: undecodable
bytes are dropped. -/
def cp1251DecodeIgnore (bs : List Nat) : String :=
  String.mk (bs.filterMap cp1251Char)

/-- Model of `.replace('_', ' ')` on the decoded name. -/
def replaceUnderscore (nm : String) : String :=
  String.mk (nm.data.map (fun c => if c = '_' then ' ' else c))

/-- The full name decode performed at line 70 of the source. -/
def decodeName (bs : List Nat) : String :=
  replaceUnderscore (cp1251DecodeIgnore bs)

/-- The name-collecting loop of `MRGParser.parse`: read one byte at a time
until a zero byte. At end of file `f.read(1)` returns the empty string,
which is not the zero byte, so the source loop runs forever; running out of
fuel (`none`) models that divergence. -/
def scanNameFuel : ByteSrc → Nat → Option (List Nat × ByteSrc)
  | _, 0 => none
  | s, fuel + 1 =>
    match s.read 1 with
    | ([], sNext) => scanNameFuel sNext fuel
    | (b :: _, sNext) =>
      if b = 0 then some ([], sNext)
      else
        match scanNameFuel sNext fuel with
        | none => none
        | some (nb, sEnd) => some (b :: nb, sEnd)

/-- Runs the name loop with enough fuel to reach a terminator or the end of
the buffer; `none` exactly when the source loop diverges. -/
def scanName (s : ByteSrc) : Option (List Nat × ByteSrc) :=
  scanNameFuel s (s.buf.length - s.pos + 1)

/-- A directory entry: byte offset, decoded name, 0-based index within its
level. Mirrors the `(offset, name, track_id)` tuples of the source. -/
structure DirEntry where
  offset : Nat
  name : String
  trackId : Nat
deriving Repr, DecidableEq

/-- The inner loop `for track_id in range(track_count)`: read a 4-byte
offset then a null-terminated name, `n` times. -/
def readEntries : ByteSrc → Nat → Nat → Option (Except Err (List DirEntry × ByteSrc))
  | s, _, 0 => some (.ok ([], s))
  | s, tid, n + 1 =>
    match readU32 s with
    | .error e => some (.error e)
    | .ok (off, s1) =>
      match scanName s1 with
      | none => none
      | some (nb, s2) =>
        match readEntries s2 (tid + 1) n with
        | none => none
        | some (.error e) => some (.error e)
        | some (.ok (es, s3)) => some (.ok (⟨off, decodeName nb, tid⟩ :: es, s3))

/-- The outer loop `for level in range(3)`: read a 4-byte count then that
many entries, once per remaining level. -/
def readLevels : ByteSrc → Nat → Option (Except Err (List (List DirEntry) × ByteSrc))
  | s, 0 => some (.ok ([], s))
  | s, k + 1 =>
    match readU32 s with
    | .error e => some (.error e)
    | .ok (cnt, s1) =>
      match readEntries s1 0 cnt with
      | none => none
      | some (.error e) => some (.error e)
      | some (.ok (es, s2)) =>
        match readLevels s2 k with
        | none => none
        | some (.error e) => some (.error e)
        | some (.ok (ls, s3)) => some (.ok (es :: ls, s3))

/-- The output record, mirroring the `Track` dataclass: name, level, index,
anchor coordinates and path points after `__post_init__` has rescaled them,
and the provenance tag filled in by the batch aggregator. -/
structure Track where
  name : String
  level : Nat
  trackId : Nat
  startX : Int
  startY : Int
  finishX : Int
  finishY : Int
  points : List (Int × Int)
  sourceFile : String
deriving Repr, DecidableEq

/-- Left shift as the source language computes it on unbounded integers. -/
def pyShl (v : Int) (n : Nat) : Int := v * 2 ^ n

/-- Right shift as the source language computes it: floor division, hence
arithmetic (sign-preserving) for negative values. -/
def pyShr (v : Int) (n : Nat) : Int := Int.fdiv v (2 ^ n)

/-- The anchor rescale of `Track.__post_init__`: `(value << 16) >> 3`. -/
def anchorTransform (v : Int) : Int := pyShr (pyShl v 16) 3

/-- The path-point rescale of `Track.__post_init__`: `(value << 3) >> 16`. -/
def pointTransform (v : Int) : Int := pyShr (pyShl v 3) 16

/-- Track construction including the `__post_init__` rescales: anchors get
`anchorTransform`, every point gets `pointTransform` componentwise. -/
def mkTrack (name : String) (level tid : Nat) (sx sy fx fy : Int)
    (pts : List (Int × Int)) : Track :=
  { name := name, level := level, trackId := tid,
    startX := anchorTransform sx, startY := anchorTransform sy,
    finishX := anchorTransform fx, finishY := anchorTransform fy,
    points := pts.map (fun p => (pointTransform p.1, pointTransform p.2)),
    sourceFile := "" }

/-- The two failure reports `_parse_track` can emit in place of a track:
the invalid-marker warning (carrying the marker byte and the name) and the
catch-all error report for a read failure (carrying the name and the
underlying error). -/
inductive TrackFail where
  | badMarker (marker : Nat) (name : String)
  | readFail (name : String) (e : Err)
deriving Repr, DecidableEq

/-- The loop `for i in range(1, points_count)` of `_parse_track`, called
with the number of remaining points: read a signed byte; on the escape
value `-1` zero the cursor and read two signed 32-bit integers as the
delta, otherwise read a second signed byte as the delta; in both branches
advance the cursor by the delta and append the cursor. -/
def parsePointsLoop : ByteSrc → Int → Int → Nat → Except Err (List (Int × Int) × ByteSrc)
  | s, _, _, 0 => .ok ([], s)
  | s, cx, cy, n + 1 =>
    match readI8 s with
    | .error e => .error e
    | .ok (dx, s1) =>
      if dx = -1 then
        match readI32 s1 with
        | .error e => .error e
        | .ok (x, s2) =>
          match readI32 s2 with
          | .error e => .error e
          | .ok (y, s3) =>
            match parsePointsLoop s3 (0 + x) (0 + y) n with
            | .error e => .error e
            | .ok (ps, s4) => .ok ((0 + x, 0 + y) :: ps, s4)
      else
        match readI8 s1 with
        | .error e => .error e
        | .ok (dy, s2) =>
          match parsePointsLoop s2 (cx + dx) (cy + dy) n with
          | .error e => .error e
          | .ok (ps, s3) => .ok ((cx + dx, cy + dy) :: ps, s3)

/-- Model of `MRGParser._parse_track`, starting at the byte source's current
position (the caller seeks first): marker check, four signed 32-bit anchors,
unsigned 16-bit point count, one absolute first point, then the delta loop
for the remaining `point_count - 1` points. Any read failure is caught and
reported; a wrong marker aborts only this track. -/
def parseTrack (s : ByteSrc) (name : String) (level tid : Nat) : Except TrackFail Track :=
  match readU8 s with
  | .error e => .error (.readFail name e)
  | .ok (marker, s1) =>
    if marker ≠ 0x33 then .error (.badMarker marker name)
    else
      match readI32 s1 with
      | .error e => .error (.readFail name e)
      | .ok (sx, s2) =>
        match readI32 s2 with
        | .error e => .error (.readFail name e)
        | .ok (sy, s3) =>
          match readI32 s3 with
          | .error e => .error (.readFail name e)
          | .ok (fx, s4) =>
            match readI32 s4 with
            | .error e => .error (.readFail name e)
            | .ok (fy, s5) =>
              match readU16 s5 with
              | .error e => .error (.readFail name e)
              | .ok (cnt, s6) =>
                match readI32 s6 with
                | .error e => .error (.readFail name e)
                | .ok (px, s7) =>
                  match readI32 s7 with
                  | .error e => .error (.readFail name e)
                  | .ok (py, s8) =>
                    match parsePointsLoop s8 px py (cnt - 1) with
                    | .error e => .error (.readFail name e)
                    | .ok (rest, _) =>
                      .ok (mkTrack name level tid sx sy fx fy ((px, py) :: rest))

/-- Decoding one directory entry: seek to its offset and run the track
decoder with the entry's name and index and the level it came from. -/
def decodeEntry (buf : List Nat) (level : Nat) (e : DirEntry) : Except TrackFail Track :=
  parseTrack (ByteSrc.seek ⟨buf, 0⟩ e.offset) e.name level e.trackId

/-- The per-level walk of the second phase of `MRGParser.parse`: decode
each entry in order, appending a track on success and a failure report
otherwise. -/
def runEntries (buf : List Nat) (level : Nat) : List DirEntry → List Track × List TrackFail
  | [] => ([], [])
  | e :: es =>
    let rest := runEntries buf level es
    match decodeEntry buf level e with
    | .ok t => (t :: rest.1, rest.2)
    | .error f => (rest.1, f :: rest.2)

/-- The walk over `enumerate(levels_data)`: levels in order, with their
index as the level number. -/
def runLevels (buf : List Nat) : Nat → List (List DirEntry) → List Track × List TrackFail
  | _, [] => ([], [])
  | lv, es :: rest =>
    let here := runEntries buf lv es
    let there := runLevels buf (lv + 1) rest
    (here.1 ++ there.1, here.2 ++ there.2)

/-- Model of `MRGParser.parse` over an in-memory buffer: read the
three-level directory from position 0, then decode every entry at its
offset. A truncation while reading the directory propagates (the source has
no handler there); `none` models the divergence of the name loop at end of
file. The second component collects the per-track failure reports. -/
def parse (buf : List Nat) : Option (Except Err (List Track × List TrackFail)) :=
  match readLevels ⟨buf, 0⟩ 3 with
  | none => none
  | some (.error e) => some (.error e)
  | some (.ok (levels, _)) => some (.ok (runLevels buf 0 levels))

/-- The aggregator's per-track stamp `track.source_file = file_name`. -/
def setSource (nm : String) (t : Track) : Track :=
  { t with sourceFile := nm }

/-- The tracks a named source contributes to a batch run: its parsed tracks
stamped with the source's name, or nothing when the source fails. -/
def sourceTracks (src : String × List Nat) : List Track :=
  match parse src.2 with
  | some (.ok (ts, _)) => ts.map (setSource src.1)
  | _ => []

/-- Model of `parse_multiple_files` over named in-memory sources: in input
order, parse each source; on success stamp its tracks and append them, on a
raised error record the source's name in the failed list and continue.
`none` models a source whose parse diverges (which would hang the batch). -/
def parseMultiple : List (String × List Nat) → Option (List Track × List String)
  | [] => some ([], [])
  | (nm, buf) :: rest =>
    match parse buf with
    | none => none
    | some (.error _) =>
      match parseMultiple rest with
      | none => none
      | some (ts, fs) => some (ts, nm :: fs)
    | some (.ok (ts, _)) =>
      match parseMultiple rest with
      | none => none
      | some (ts2, fs) => some (ts.map (setSource nm) ++ ts2, fs)

/-- Reads the point count a successful track parse used: the unsigned
16-bit big-endian value 17 bytes past the track's offset (after the marker
byte and four 4-byte anchors). -/
def trackPointCount (buf : List Nat) (off : Nat) : Option Nat :=
  match readU16 ⟨buf, off + 17⟩ with
  | .ok (c, _) => some c
  | .error _ => none

/-- Reads the raw absolute first point of a track: two signed 32-bit
big-endian values 19 bytes past the track's offset. -/
def trackFirstPoint (buf : List Nat) (off : Nat) : Option (Int × Int) :=
  match readI32 ⟨buf, off + 19⟩ with
  | .error _ => none
  | .ok (x, s) =>
    match readI32 s with
    | .error _ => none
    | .ok (y, _) => some (x, y)

/-- Modelled from the spec for comparison with the code (claim C2): the
anchor rescale performed on signed 32-bit-wide values, widening with
wraparound at 32 bits and then an arithmetic 3-bit right shift. -/
def anchorTransformSpec32 (v : Int) : Int :=
  Int.fdiv (toSigned 32 ((pyShl v 16) % (2 ^ 32 : Int)).toNat) (2 ^ 3)

/-- Extracts the success value of a decode result. -/
def exceptOk : Except ε α → Option α
  | .ok a => some a
  | .error _ => none

/-- Extracts the failure value of a decode result. -/
def exceptErr : Except ε α → Option ε
  | .ok _ => none
  | .error e => some e

instance {ε α : Type} [DecidableEq ε] [DecidableEq α] : DecidableEq (Except ε α) := fun x y =>
  match x, y with
  | .ok a, .ok b =>
    if h : a = b then .isTrue (by rw [h]) else .isFalse (by intro hx; cases hx; exact h rfl)
  | .ok _, .error _ => .isFalse (by intro hx; cases hx)
  | .error _, .ok _ => .isFalse (by intro hx; cases hx)
  | .error e, .error f =>
    if h : e = f then .isTrue (by rw [h]) else .isFalse (by intro hx; cases hx; exact h rfl)

/-- The 27 bytes of a small well-formed track record: marker `0x33`,
anchors 1, 2, 3, 4, point count 2, first point (100, 100) and one relative
delta (1, 1). -/
def goodTrackBytes : List Nat :=
  [0x33] ++ [0, 0, 0, 1] ++ [0, 0, 0, 2] ++ [0, 0, 0, 3] ++ [0, 0, 0, 4] ++
  [0, 2] ++ [0, 0, 0, 100] ++ [0, 0, 0, 100] ++ [1, 1]

/-- A well-formed one-track buffer: level 0 holds one entry named `a` at
offset 18, levels 1 and 2 are empty, and the track follows the directory. -/
def goodBuf : List Nat :=
  [0, 0, 0, 1] ++ [0, 0, 0, 18] ++ [0x61, 0] ++ [0, 0, 0, 0] ++ [0, 0, 0, 0] ++
  goodTrackBytes

/-- The track that `goodBuf` decodes to, after the coordinate rescales. -/
def trackA : Track :=
  ⟨"a", 0, 0, 8192, 16384, 24576, 32768, [(0, 0), (0, 0)], ""⟩

/-- A buffer whose single level-0 entry named `t` points at marker byte
`0x55` instead of `0x33`. -/
def badBufA : List Nat :=
  [0, 0, 0, 1] ++ [0, 0, 0, 18] ++ [0x74, 0] ++ [0, 0, 0, 0] ++ [0, 0, 0, 0] ++
  [0x55]

/-- Like `badBufA` but the same bad entry sits in level 1 instead of
level 0; both buffers are 19 bytes with the marker at offset 18. -/
def badBufB : List Nat :=
  [0, 0, 0, 0] ++ [0, 0, 0, 1] ++ [0, 0, 0, 18] ++ [0x74, 0] ++ [0, 0, 0, 0] ++
  [0x55]

/-- A buffer that ends in the middle of a directory name: count 1, offset,
then the byte `A` with no null terminator before end of file. -/
def stallBuf : List Nat :=
  [0, 0, 0, 1] ++ [0, 0, 0, 0] ++ [0x41]

/-- A track record whose header declares zero points: marker, start anchor
x raw value 32768, remaining anchors 0, point count 0, then the first
point (7, 9) that the decoder reads unconditionally. -/
def zeroBuf : List Nat :=
  [0x33] ++ [0, 0, 128, 0] ++ [0, 0, 0, 0] ++ [0, 0, 0, 0] ++ [0, 0, 0, 0] ++
  [0, 0] ++ [0, 0, 0, 7] ++ [0, 0, 0, 9]

/-- The track that `zeroBuf` decodes to. -/
def trackZ : Track :=
  ⟨"t", 0, 0, 268435456, 0, 0, 0, [(0, 0)], ""⟩

/-- A two-entry source: entry `b` at offset 24 has marker byte `0x55`
(invalid), entry `a` at offset 25 is a well-formed track. -/
def mixBuf : List Nat :=
  [0, 0, 0, 2] ++ [0, 0, 0, 24] ++ [0x62, 0] ++ [0, 0, 0, 25] ++ [0x61, 0] ++
  [0, 0, 0, 0] ++ [0, 0, 0, 0] ++ [0x55] ++ goodTrackBytes

/-- The track the second entry of `mixBuf` decodes to. -/
def trackA1 : Track :=
  ⟨"a", 0, 1, 8192, 16384, 24576, 32768, [(0, 0), (0, 0)], ""⟩

lemma readU8_pos {s : ByteSrc} {v : Nat} {sE : ByteSrc} (h : readU8 s = .ok (v, sE)) :
    sE = ⟨s.buf, s.pos + 1⟩ := by
  simp only [readU8, ByteSrc.read] at h
  split at h
  · next hl =>
    simp only [Except.ok.injEq, Prod.mk.injEq] at h
    rw [← h.2, hl]
  · exact absurd h (by simp)

lemma readU16_pos {s : ByteSrc} {v : Nat} {sE : ByteSrc} (h : readU16 s = .ok (v, sE)) :
    sE = ⟨s.buf, s.pos + 2⟩ := by
  simp only [readU16, ByteSrc.read] at h
  split at h
  · next hl =>
    simp only [Except.ok.injEq, Prod.mk.injEq] at h
    rw [← h.2, hl]
  · exact absurd h (by simp)

lemma readI32_pos {s : ByteSrc} {v : Int} {sE : ByteSrc} (h : readI32 s = .ok (v, sE)) :
    sE = ⟨s.buf, s.pos + 4⟩ := by
  simp only [readI32, ByteSrc.read] at h
  split at h
  · next hl =>
    simp only [Except.ok.injEq, Prod.mk.injEq] at h
    rw [← h.2, hl]
  · exact absurd h (by simp)

lemma readU8_drop {s : ByteSrc} {b : Nat} {t : List Nat}
    (h : s.buf.drop s.pos = b :: t) :
    readU8 s = .ok (b, ⟨s.buf, s.pos + 1⟩) := by
  simp [readU8, ByteSrc.read, h, beVal]

lemma readI8_drop {s : ByteSrc} {b : Nat} {t : List Nat}
    (h : s.buf.drop s.pos = b :: t) :
    readI8 s = .ok (toSigned 8 b, ⟨s.buf, s.pos + 1⟩) := by
  simp [readI8, ByteSrc.read, h, beVal]

lemma readI32_drop {s : ByteSrc} {b3 b2 b1 b0 : Nat} {t : List Nat}
    (h : s.buf.drop s.pos = b3 :: b2 :: b1 :: b0 :: t) :
    readI32 s = .ok (toSigned 32 (beVal [b3, b2, b1, b0]), ⟨s.buf, s.pos + 4⟩) := by
  simp [readI32, ByteSrc.read, h, beVal]

lemma toSigned8_ne_neg_one {b : Nat} (hb : b < 256) (hne : b ≠ 255) :
    toSigned 8 b ≠ -1 := by
  simp only [toSigned]
  split <;> omega

lemma parsePointsLoop_length :
    ∀ (n : Nat) (s : ByteSrc) (cx cy : Int) (ps : List (Int × Int)) (sE : ByteSrc),
      parsePointsLoop s cx cy n = .ok (ps, sE) → ps.length = n := by
  intro n
  induction n with
  | zero =>
    intro s cx cy ps sE h
    simp only [parsePointsLoop, Except.ok.injEq, Prod.mk.injEq] at h
    rw [← h.1]
    rfl
  | succ n ih =>
    intro s cx cy ps sE h
    simp only [parsePointsLoop] at h
    cases h0 : readI8 s with
    | error e => simp only [h0] at h; exact absurd h (by simp)
    | ok r1 =>
      obtain ⟨dx, s1⟩ := r1
      simp only [h0] at h
      by_cases hdx : dx = -1
      · rw [if_pos hdx] at h
        cases h1 : readI32 s1 with
        | error e => simp only [h1] at h; exact absurd h (by simp)
        | ok r2 =>
          obtain ⟨x, s2⟩ := r2
          simp only [h1] at h
          cases h2 : readI32 s2 with
          | error e => simp only [h2] at h; exact absurd h (by simp)
          | ok r3 =>
            obtain ⟨y, s3⟩ := r3
            simp only [h2] at h
            cases h3 : parsePointsLoop s3 (0 + x) (0 + y) n with
            | error e => simp only [h3] at h; exact absurd h (by simp)
            | ok r4 =>
              obtain ⟨ps1, s4⟩ := r4
              simp only [h3] at h
              simp only [Except.ok.injEq, Prod.mk.injEq] at h
              rw [← h.1]
              simp [ih _ _ _ _ _ h3]
      · rw [if_neg hdx] at h
        cases h1 : readI8 s1 with
        | error e => simp only [h1] at h; exact absurd h (by simp)
        | ok r2 =>
          obtain ⟨dy, s2⟩ := r2
          simp only [h1] at h
          cases h2 : parsePointsLoop s2 (cx + dx) (cy + dy) n with
          | error e => simp only [h2] at h; exact absurd h (by simp)
          | ok r3 =>
            obtain ⟨ps1, s3⟩ := r3
            simp only [h2] at h
            simp only [Except.ok.injEq, Prod.mk.injEq] at h
            rw [← h.1]
            simp [ih _ _ _ _ _ h2]

lemma scanNameFuel_eof {s : ByteSrc} (h : s.buf.length ≤ s.pos) :
    ∀ fuel, scanNameFuel s fuel = none := by
  intro fuel
  induction fuel with
  | zero => rfl
  | succ n ih =>
    have hread : s.read 1 = ([], s) := by
      simp [ByteSrc.read, List.drop_eq_nil_of_le h]
    rw [scanNameFuel, hread]
    exact ih

lemma scanNameFuel_cons {s : ByteSrc} {b : Nat} {t : List Nat}
    (h : s.buf.drop s.pos = b :: t) (hb : b ≠ 0) (fuel : Nat) :
    scanNameFuel s (fuel + 1) =
      match scanNameFuel ⟨s.buf, s.pos + 1⟩ fuel with
      | none => none
      | some (nb, sEnd) => some (b :: nb, sEnd) := by
  have hread : s.read 1 = ([b], ⟨s.buf, s.pos + 1⟩) := by
    simp [ByteSrc.read, h]
  rw [scanNameFuel, hread]
  simp [hb]

lemma runEntries_fst (buf : List Nat) (lv : Nat) :
    ∀ es : List DirEntry,
      (runEntries buf lv es).1 = es.filterMap (fun e => exceptOk (decodeEntry buf lv e)) := by
  intro es
  induction es with
  | nil => rfl
  | cons e es ih =>
    simp only [runEntries, List.filterMap_cons]
    cases h : decodeEntry buf lv e <;> simp [exceptOk, ih]

lemma runEntries_snd (buf : List Nat) (lv : Nat) :
    ∀ es : List DirEntry,
      (runEntries buf lv es).2 = es.filterMap (fun e => exceptErr (decodeEntry buf lv e)) := by
  intro es
  induction es with
  | nil => rfl
  | cons e es ih =>
    simp only [runEntries, List.filterMap_cons]
    cases h : decodeEntry buf lv e <;> simp [exceptErr, ih]

lemma runEntries_append (buf : List Nat) (lv : Nat) (es1 es2 : List DirEntry) :
    runEntries buf lv (es1 ++ es2) =
      ((runEntries buf lv es1).1 ++ (runEntries buf lv es2).1,
       (runEntries buf lv es1).2 ++ (runEntries buf lv es2).2) := by
  induction es1 with
  | nil => simp [runEntries]
  | cons e es ih =>
    simp only [List.cons_append, runEntries]
    cases decodeEntry buf lv e <;> simp [ih]

lemma runLevels_fst (buf : List Nat) :
    ∀ (lss : List (List DirEntry)) (k : Nat),
      (runLevels buf k lss).1 =
        ((lss.enumFrom k).map (fun p => (runEntries buf p.1 p.2).1)).flatten := by
  intro lss
  induction lss with
  | nil => intro k; rfl
  | cons es rest ih =>
    intro k
    simp [runLevels, List.enumFrom, ih (k + 1)]

lemma readU8_pos' {buf : List Nat} {p : Nat} {v : Nat} {sE : ByteSrc}
    (h : readU8 ⟨buf, p⟩ = .ok (v, sE)) (q : Nat) (hq : p + 1 = q) : sE = ⟨buf, q⟩ := by
  subst hq; exact readU8_pos h

lemma readU16_pos' {buf : List Nat} {p : Nat} {v : Nat} {sE : ByteSrc}
    (h : readU16 ⟨buf, p⟩ = .ok (v, sE)) (q : Nat) (hq : p + 2 = q) : sE = ⟨buf, q⟩ := by
  subst hq; exact readU16_pos h

lemma readI32_pos' {buf : List Nat} {p : Nat} {v : Int} {sE : ByteSrc}
    (h : readI32 ⟨buf, p⟩ = .ok (v, sE)) (q : Nat) (hq : p + 4 = q) : sE = ⟨buf, q⟩ := by
  subst hq; exact readI32_pos h

lemma parseTrack_ok_shape {buf : List Nat} {off : Nat} {nm : String} {lv tid : Nat} {t : Track}
    (h : parseTrack ⟨buf, off⟩ nm lv tid = .ok t) :
    ∃ (cnt : Nat) (px py : Int) (rest : List (Int × Int)),
      trackPointCount buf off = some cnt ∧
      trackFirstPoint buf off = some (px, py) ∧
      rest.length = cnt - 1 ∧
      t.points = ((px, py) :: rest).map (fun p => (pointTransform p.1, pointTransform p.2)) := by
  simp only [parseTrack] at h
  cases h0 : readU8 ⟨buf, off⟩ with
  | error e => simp [h0] at h
  | ok r1 =>
  obtain ⟨marker, s1⟩ := r1
  have hs1 : s1 = ⟨buf, off + 1⟩ := readU8_pos' h0 (off + 1) rfl
  subst hs1
  simp only [h0] at h
  by_cases hm : marker ≠ 0x33
  · rw [if_pos hm] at h
    exact absurd h (by simp)
  · rw [if_neg hm] at h
    cases h1 : readI32 ⟨buf, off + 1⟩ with
    | error e => simp [h1] at h
    | ok r2 =>
    obtain ⟨sx, s2⟩ := r2
    have hs2 : s2 = ⟨buf, off + 5⟩ := readI32_pos' h1 (off + 5) (by omega)
    subst hs2
    simp only [h1] at h
    cases h2 : readI32 ⟨buf, off + 5⟩ with
    | error e => simp [h2] at h
    | ok r3 =>
    obtain ⟨sy, s3⟩ := r3
    have hs3 : s3 = ⟨buf, off + 9⟩ := readI32_pos' h2 (off + 9) (by omega)
    subst hs3
    simp only [h2] at h
    cases h3 : readI32 ⟨buf, off + 9⟩ with
    | error e => simp [h3] at h
    | ok r4 =>
    obtain ⟨fx, s4⟩ := r4
    have hs4 : s4 = ⟨buf, off + 13⟩ := readI32_pos' h3 (off + 13) (by omega)
    subst hs4
    simp only [h3] at h
    cases h4 : readI32 ⟨buf, off + 13⟩ with
    | error e => simp [h4] at h
    | ok r5 =>
    obtain ⟨fy, s5⟩ := r5
    have hs5 : s5 = ⟨buf, off + 17⟩ := readI32_pos' h4 (off + 17) (by omega)
    subst hs5
    simp only [h4] at h
    cases h5 : readU16 ⟨buf, off + 17⟩ with
    | error e => simp [h5] at h
    | ok r6 =>
    obtain ⟨cnt, s6⟩ := r6
    have hs6 : s6 = ⟨buf, off + 19⟩ := readU16_pos' h5 (off + 19) (by omega)
    subst hs6
    simp only [h5] at h
    cases h6 : readI32 ⟨buf, off + 19⟩ with
    | error e => simp [h6] at h
    | ok r7 =>
    obtain ⟨px, s7⟩ := r7
    have hs7 : s7 = ⟨buf, off + 23⟩ := readI32_pos' h6 (off + 23) (by omega)
    subst hs7
    simp only [h6] at h
    cases h7 : readI32 ⟨buf, off + 23⟩ with
    | error e => simp [h7] at h
    | ok r8 =>
    obtain ⟨py, s8⟩ := r8
    have hs8 : s8 = ⟨buf, off + 27⟩ := readI32_pos' h7 (off + 27) (by omega)
    subst hs8
    simp only [h7] at h
    cases h8 : parsePointsLoop ⟨buf, off + 27⟩ px py (cnt - 1) with
    | error e => simp [h8] at h
    | ok r9 =>
    obtain ⟨rest, s9⟩ := r9
    simp only [h8, Except.ok.injEq] at h
    refine ⟨cnt, px, py, rest, ?_, ?_, ?_, ?_⟩
    · simp [trackPointCount, h5]
    · simp [trackFirstPoint, h6, h7]
    · exact parsePointsLoop_length _ _ _ _ _ _ h8
    · rw [← h]
      rfl

/-- C2, counterexample: the anchor rescale of the code is computed on
unbounded integers, not on 32-bit-wrapped values: at raw start anchor
32768 the decoded track carries `268435456`, while the 32-bit-wrapped
arithmetic-shift version of the claim yields `-268435456`. -/
theorem c2_wrap32_counterexample :
    parseTrack ⟨zeroBuf, 0⟩ "t" 0 0 = .ok trackZ ∧
    trackZ.startX = anchorTransform 32768 ∧
    anchorTransform 32768 = 268435456 ∧
    anchorTransformSpec32 32768 = -268435456 ∧
    trackZ.startX ≠ anchorTransformSpec32 32768 := by
  decide

/-- C2, amended: the anchor rescale `(value << 16) >> 3` is applied to all
four anchor fields and, computed on unbounded integers as the source does,
equals exact multiplication by `2 ^ 13 = 8192`, preserving sign — with no
32-bit wraparound. -/
theorem c2_anchor_rescale_amended :
    (∀ v : Int, anchorTransform v = v * 8192) ∧
    (∀ (nm : String) (lv tid : Nat) (sx sy fx fy : Int) (pts : List (Int × Int)),
      (mkTrack nm lv tid sx sy fx fy pts).startX = anchorTransform sx ∧
      (mkTrack nm lv tid sx sy fx fy pts).startY = anchorTransform sy ∧
      (mkTrack nm lv tid sx sy fx fy pts).finishX = anchorTransform fx ∧
      (mkTrack nm lv tid sx sy fx fy pts).finishY = anchorTransform fy) := by
  constructor
  · intro v
    have hv : pyShl v 16 = v * 8192 * 2 ^ 3 := by simp [pyShl]; ring
    simp only [anchorTransform, hv, pyShr]
    exact Int.mul_fdiv_cancel _ (by norm_num)
  · intro nm lv tid sx sy fx fy pts
    exact ⟨rfl, rfl, rfl, rfl⟩

/-- C3: on a buffer that ends inside a directory name, the decoder does not
fail with a truncation error: the name loop never terminates, because at
end of file `f.read(1)` returns an empty byte string that never equals the
null terminator. The fuelled scan returns `none` for every fuel, and the
whole parse is the divergence value `none` rather than a truncation
error. -/
theorem c3_name_scan_stalls :
    parse stallBuf = none ∧
    (∀ fuel, scanNameFuel ⟨stallBuf, 9⟩ fuel = none) ∧
    (∀ fuel, scanNameFuel ⟨stallBuf, 8⟩ fuel = none) := by
  refine ⟨by decide, ?_, ?_⟩
  · exact fun fuel => scanNameFuel_eof (by decide) fuel
  · intro fuel
    cases fuel with
    | zero => rfl
    | succ n =>
      rw [scanNameFuel_cons (s := ⟨stallBuf, 8⟩) (b := 0x41) (t := [])
        (by decide) (by decide) n]
      rw [scanNameFuel_eof (s := ⟨stallBuf, 8 + 1⟩) (by decide) n]

/-- C5, counterexample: the name decode drops the undecodable byte `0x98`
instead of substituting the Unicode replacement character `0xFFFD`. -/
theorem c5_replacement_counterexample :
    decodeName [0x98, 0x41] = "A" ∧
    decodeName [0x98, 0x41] ≠ String.mk [Char.ofNat 0xFFFD, Char.ofNat 0x41] := by
  decide

/-- C5, amended: directory names are decoded with the cp1251 codec where
undecodable bytes are silently dropped (the `ignore` policy) — the decode
itself never fails — and afterwards every underscore is replaced by a
space. -/
theorem c5_name_decode_amended :
    (∀ bs : List Nat, decodeName (0x98 :: bs) = decodeName bs) ∧
    decodeName [0x98, 0x41] = "A" ∧
    decodeName [0x5F] = " " ∧
    (∀ (bs : List Nat) (c : Char), c ∈ (decodeName bs).data → c ≠ '_') := by
  have h98 : cp1251Char 0x98 = none := by decide
  refine ⟨?_, by decide, by decide, ?_⟩
  · intro bs
    simp [decodeName, cp1251DecodeIgnore, List.filterMap_cons, h98]
  · intro bs c hc
    simp only [decodeName, replaceUnderscore] at hc
    rw [show ∀ l : List Char, (String.mk l).data = l from fun _ => rfl] at hc
    obtain ⟨a, _, heq⟩ := List.mem_map.1 hc
    rw [← heq]
    by_cases h : a = '_'
    · simp [h]
    · simp [h]

/-- C5 witness: the character decoded from the ASCII byte `0x61` is in the
decoded name and is not an underscore. -/
theorem c5_name_decode_amended_witness :
    'a' ∈ (decodeName [0x61]).data ∧ 'a' ≠ '_' :=
  ⟨by decide, c5_name_decode_amended.2.2.2 [0x61] 'a' (by decide)⟩

/-- C8: the two rescales are asymmetric: at `x = 8` the anchor transform
yields `65536` and the point transform yields `0`, matching their literal
bit-shift formulas, and the point transform is exactly floor division by
`2 ^ 13 = 8192` (truncation toward negative infinity). -/
theorem c8_transforms_asymmetry :
    anchorTransform 8 = 65536 ∧
    pointTransform 8 = 0 ∧
    anchorTransform 8 ≠ pointTransform 8 ∧
    (∀ v : Int, pointTransform v = Int.fdiv v 8192) := by
  refine ⟨by decide, by decide, by decide, ?_⟩
  intro v
  simp only [pointTransform, pyShl, pyShr]
  rw [Int.fdiv_eq_ediv _ (by norm_num), Int.fdiv_eq_ediv _ (by norm_num)]
  have h1 : v * 2 ^ 3 = 2 ^ 3 * v := by ring
  have h2 : (2 ^ 16 : Int) = 2 ^ 3 * 8192 := by norm_num
  rw [h1, h2, Int.mul_ediv_mul_of_pos _ _ (by norm_num)]

/-- C1: the per-point decode rule. A non-escape signed byte `b` is followed
by one more signed byte `c` and the appended point is the cursor advanced
by `(b, c)` as signed 8-bit deltas; the escape byte `-1` (0xFF) zeroes the
cursor and reads two big-endian signed 32-bit values, so the appended point
is exactly that absolute pair, independent of the previous cursor. The two
concrete streams of the claim decode to the stated pre-rescale points:
first point (100,100) with raw deltas (1,1),(2,-2) gives (101,101),(103,99),
and an escaped absolute point (5,7) after first point (2,3) gives exactly
(5,7). -/
theorem c1_point_stream_rule :
    (∀ (b c : Nat) (rest : List Nat) (cx cy : Int), b < 256 → c < 256 → b ≠ 255 →
      parsePointsLoop ⟨b :: c :: rest, 0⟩ cx cy 1 =
        .ok ([(cx + toSigned 8 b, cy + toSigned 8 c)], ⟨b :: c :: rest, 2⟩)) ∧
    (∀ (b3 b2 b1 b0 c3 c2 c1 c0 : Nat) (rest : List Nat) (cx cy : Int),
      parsePointsLoop ⟨255 :: b3 :: b2 :: b1 :: b0 :: c3 :: c2 :: c1 :: c0 :: rest, 0⟩ cx cy 1 =
        .ok ([(toSigned 32 (beVal [b3, b2, b1, b0]), toSigned 32 (beVal [c3, c2, c1, c0]))],
          ⟨255 :: b3 :: b2 :: b1 :: b0 :: c3 :: c2 :: c1 :: c0 :: rest, 9⟩)) ∧
    parsePointsLoop ⟨[1, 1, 2, 0xFE], 0⟩ 100 100 2 =
      .ok ([(101, 101), (103, 99)], ⟨[1, 1, 2, 0xFE], 4⟩) ∧
    parsePointsLoop ⟨[0xFF, 0, 0, 0, 5, 0, 0, 0, 7], 0⟩ 2 3 1 =
      .ok ([(5, 7)], ⟨[0xFF, 0, 0, 0, 5, 0, 0, 0, 7], 9⟩) := by
  refine ⟨?_, ?_, by decide, by decide⟩
  · intro b c rest cx cy hb hc hne
    have h1 : readI8 ⟨b :: c :: rest, 0⟩ = .ok (toSigned 8 b, ⟨b :: c :: rest, 1⟩) := by
      simpa using readI8_drop (s := ⟨b :: c :: rest, 0⟩) (t := c :: rest) (by simp)
    have h2 : readI8 ⟨b :: c :: rest, 1⟩ = .ok (toSigned 8 c, ⟨b :: c :: rest, 2⟩) := by
      simpa using readI8_drop (s := ⟨b :: c :: rest, 1⟩) (t := rest) (by simp)
    simp only [parsePointsLoop, h1]
    rw [if_neg (toSigned8_ne_neg_one hb hne)]
    simp only [h2, parsePointsLoop]
  · intro b3 b2 b1 b0 c3 c2 c1 c0 rest cx cy
    have h1 : readI8 ⟨255 :: b3 :: b2 :: b1 :: b0 :: c3 :: c2 :: c1 :: c0 :: rest, 0⟩ =
        .ok (toSigned 8 255, ⟨255 :: b3 :: b2 :: b1 :: b0 :: c3 :: c2 :: c1 :: c0 :: rest, 1⟩) := by
      simpa using readI8_drop
        (s := ⟨255 :: b3 :: b2 :: b1 :: b0 :: c3 :: c2 :: c1 :: c0 :: rest, 0⟩)
        (t := b3 :: b2 :: b1 :: b0 :: c3 :: c2 :: c1 :: c0 :: rest) (by simp)
    have h255 : toSigned 8 255 = -1 := by decide
    have h2 : readI32 ⟨255 :: b3 :: b2 :: b1 :: b0 :: c3 :: c2 :: c1 :: c0 :: rest, 1⟩ =
        .ok (toSigned 32 (beVal [b3, b2, b1, b0]),
          ⟨255 :: b3 :: b2 :: b1 :: b0 :: c3 :: c2 :: c1 :: c0 :: rest, 5⟩) := by
      simpa using readI32_drop
        (s := ⟨255 :: b3 :: b2 :: b1 :: b0 :: c3 :: c2 :: c1 :: c0 :: rest, 1⟩)
        (t := c3 :: c2 :: c1 :: c0 :: rest) (by simp)
    have h3 : readI32 ⟨255 :: b3 :: b2 :: b1 :: b0 :: c3 :: c2 :: c1 :: c0 :: rest, 5⟩ =
        .ok (toSigned 32 (beVal [c3, c2, c1, c0]),
          ⟨255 :: b3 :: b2 :: b1 :: b0 :: c3 :: c2 :: c1 :: c0 :: rest, 9⟩) := by
      simpa using readI32_drop
        (s := ⟨255 :: b3 :: b2 :: b1 :: b0 :: c3 :: c2 :: c1 :: c0 :: rest, 5⟩)
        (t := rest) (by simp)
    simp only [parsePointsLoop, h1, h255, if_true]
    simp only [h2, h3]
    simp

/-- C1 witness: the relative rule applied at deltas (1, 1) from cursor
(100, 100), and the concrete escape stream, evaluated. -/
theorem c1_point_stream_rule_witness :
    parsePointsLoop ⟨[1, 1], 0⟩ 100 100 1 = .ok ([(101, 101)], ⟨[1, 1], 2⟩) := by
  rw [c1_point_stream_rule.1 1 1 [] 100 100 (by decide) (by decide) (by decide)]
  decide

/-- C4, counterexample: a track whose header declares `point_count = 0`
still decodes successfully and carries one point, so the length of
`points` does not equal the declared count. -/
theorem c4_point_count_counterexample :
    parseTrack ⟨zeroBuf, 0⟩ "t" 0 0 = .ok trackZ ∧
    trackPointCount zeroBuf 0 = some 0 ∧
    trackZ.points.length = 1 := by
  decide

/-- C4, amended: for every track that decodes successfully, the length of
its points sequence equals `max point_count 1` for the `point_count` read
from its header — equal to `point_count` whenever that is at least 1 — and
`points` is never empty. -/
theorem c4_points_length (buf : List Nat) (off : Nat) (nm : String) (lv tid : Nat)
    (t : Track) (h : parseTrack ⟨buf, off⟩ nm lv tid = .ok t) :
    ∃ cnt : Nat, trackPointCount buf off = some cnt ∧
      t.points.length = max cnt 1 ∧ t.points ≠ [] := by
  obtain ⟨cnt, px, py, rest, h1, _, h3, h4⟩ := parseTrack_ok_shape h
  refine ⟨cnt, h1, ?_, ?_⟩
  · rw [h4]
    simp only [List.length_map, List.length_cons]
    omega
  · rw [h4]
    simp

/-- C4 witness: the well-formed two-point track of `goodBuf`. -/
theorem c4_points_length_witness :
    ∃ cnt : Nat, trackPointCount goodBuf 18 = some cnt ∧
      trackA.points.length = max cnt 1 ∧ trackA.points ≠ [] :=
  c4_points_length goodBuf 18 "a" 0 0 trackA (by decide)

/-- C10: a track whose header declares `point_count = 0` nonetheless reads
the absolute first point following the count and decodes to a track whose
points sequence is exactly that one transformed point. -/
theorem c10_zero_count (buf : List Nat) (off : Nat) (nm : String) (lv tid : Nat)
    (t : Track) (h : parseTrack ⟨buf, off⟩ nm lv tid = .ok t)
    (h0 : trackPointCount buf off = some 0) :
    ∃ p : Int × Int, trackFirstPoint buf off = some p ∧
      t.points = [(pointTransform p.1, pointTransform p.2)] := by
  obtain ⟨cnt, px, py, rest, h1, h2, h3, h4⟩ := parseTrack_ok_shape h
  have hc : cnt = 0 := (Option.some.inj (h0.symm.trans h1)).symm
  have hrest : rest = [] := by
    have : rest.length = 0 := by omega
    exact List.length_eq_zero.1 this
  subst hrest
  exact ⟨(px, py), h2, by rw [h4]; simp⟩

/-- C10 witness: the zero-count track of `zeroBuf` decodes to exactly its
first point. -/
theorem c10_zero_count_witness :
    ∃ p : Int × Int, trackFirstPoint zeroBuf 0 = some p ∧
      trackZ.points = [(pointTransform p.1, pointTransform p.2)] :=
  c10_zero_count zeroBuf 0 "t" 0 0 trackZ (by decide) (by decide)

/-- C6, counterexample: the failure record emitted for a bad marker does
not carry the level: the same bad entry placed in level 0 (`badBufA`) and
in level 1 (`badBufB`) produces identical parse results, so the single
failure record `badMarker 0x55 "t"` cannot determine the level. -/
theorem c6_level_counterexample :
    readLevels ⟨badBufA, 0⟩ 3 =
      some (.ok ([[⟨18, "t", 0⟩], [], []], ⟨badBufA, 18⟩)) ∧
    readLevels ⟨badBufB, 0⟩ 3 =
      some (.ok ([[], [⟨18, "t", 0⟩], []], ⟨badBufB, 18⟩)) ∧
    parse badBufA = some (.ok ([], [.badMarker 0x55 "t"])) ∧
    parse badBufA = parse badBufB := by
  refine ⟨by decide, by decide, by decide, by decide⟩

/-- C6, amended: an entry whose offset points at a byte other than `0x33`
contributes exactly one failure record — carrying the offending marker byte
and the entry's name, but not its level — and no track; the walk over the
remaining entries is unaffected, each of them decoding exactly as it would
without the bad entry. -/
theorem c6_marker_isolation (buf : List Nat) (lv off tid : Nat) (nm : String) (m : Nat)
    (es1 es2 : List DirEntry) (hm : buf[off]? = some m) (hne : m ≠ 0x33) :
    decodeEntry buf lv ⟨off, nm, tid⟩ = .error (.badMarker m nm) ∧
    runEntries buf lv (es1 ++ ⟨off, nm, tid⟩ :: es2) =
      ((runEntries buf lv es1).1 ++ (runEntries buf lv es2).1,
       (runEntries buf lv es1).2 ++ TrackFail.badMarker m nm :: (runEntries buf lv es2).2) := by
  obtain ⟨hlt, hget⟩ := List.getElem?_eq_some.1 hm
  have hdrop : buf.drop off = m :: buf.drop (off + 1) := by
    rw [List.drop_eq_getElem_cons hlt, hget]
  have hread : readU8 ⟨buf, off⟩ = .ok (m, ⟨buf, off + 1⟩) := by
    simpa using readU8_drop (s := ⟨buf, off⟩) (t := buf.drop (off + 1)) (by simpa using hdrop)
  have hfirst : decodeEntry buf lv ⟨off, nm, tid⟩ = .error (.badMarker m nm) := by
    simp only [decodeEntry, ByteSrc.seek, parseTrack, hread]
    rw [if_pos hne]
  refine ⟨hfirst, ?_⟩
  rw [runEntries_append]
  simp only [runEntries, hfirst]

/-- C6 witness: in the two-entry source `mixBuf` the bad entry `b`
contributes only the failure record and the following good entry `a` still
decodes. -/
theorem c6_marker_isolation_witness :
    decodeEntry mixBuf 0 ⟨24, "b", 0⟩ = .error (.badMarker 0x55 "b") ∧
    runEntries mixBuf 0 ([] ++ ⟨24, "b", 0⟩ :: [⟨25, "a", 1⟩]) =
      ((runEntries mixBuf 0 []).1 ++ (runEntries mixBuf 0 [⟨25, "a", 1⟩]).1,
       (runEntries mixBuf 0 []).2 ++
         TrackFail.badMarker 0x55 "b" :: (runEntries mixBuf 0 [⟨25, "a", 1⟩]).2) :=
  c6_marker_isolation mixBuf 0 24 0 "b" 0x55 [] [⟨25, "a", 1⟩] (by decide) (by decide)

/-- C7: a raised error while parsing a source's directory aborts that
entire source — it contributes no tracks and exactly one entry in the
failed list — and the batch walk continues over the remaining sources
unchanged. -/
theorem c7_directory_abort (nm : String) (buf : List Nat) (e : Err)
    (rest : List (String × List Nat)) (h : parse buf = some (.error e)) :
    sourceTracks (nm, buf) = [] ∧
    parseMultiple ((nm, buf) :: rest) =
      (parseMultiple rest).map (fun p => (p.1, nm :: p.2)) := by
  constructor
  · simp [sourceTracks, h]
  · simp only [parseMultiple, h]
    cases parseMultiple rest with
    | none => rfl
    | some p => rfl

/-- C7 witness: the four-byte buffer whose directory claims five entries
with no bytes left raises a truncation error, yields no tracks, and the
batch continues with the following good source. -/
theorem c7_directory_abort_witness :
    sourceTracks ("b", [0, 0, 0, 5]) = [] ∧
    parseMultiple [("b", [0, 0, 0, 5]), ("g", goodBuf)] =
      (parseMultiple [("g", goodBuf)]).map (fun p => (p.1, "b" :: p.2)) :=
  c7_directory_abort "b" [0, 0, 0, 5] .truncated [("g", goodBuf)] (by decide)

/-- C9: batch output order and provenance. When every source parses, the
aggregate track list is the concatenation of the per-source track lists in
input order with an empty failed list; every track contributed by a source
carries that source's name as its provenance tag; and within one source the
track list is the per-level walk in level order (level index attached by
position) with each level's tracks in directory-entry order, each entry
decoded independently of the others. -/
theorem c9_aggregator_order :
    (∀ srcs : List (String × List Nat),
      (∀ p ∈ srcs, ∃ r, parse p.2 = some (.ok r)) →
      parseMultiple srcs = some ((srcs.map sourceTracks).flatten, [])) ∧
    (∀ (p : String × List Nat) (t : Track), t ∈ sourceTracks p → t.sourceFile = p.1) ∧
    (∀ (buf : List Nat) (ts : List Track) (fs : List TrackFail),
      parse buf = some (.ok (ts, fs)) →
      ∃ levels sE, readLevels ⟨buf, 0⟩ 3 = some (.ok (levels, sE)) ∧
        ts = ((levels.enumFrom 0).map (fun q => (runEntries buf q.1 q.2).1)).flatten ∧
        (∀ (lv : Nat) (es : List DirEntry), (runEntries buf lv es).1 =
          es.filterMap (fun e => exceptOk (decodeEntry buf lv e)))) := by
  refine ⟨?_, ?_, ?_⟩
  · intro srcs
    induction srcs with
    | nil => intro; rfl
    | cons p rest ih =>
      intro hall
      obtain ⟨nm, buf⟩ := p
      obtain ⟨r, hp⟩ := hall (nm, buf) (by simp)
      obtain ⟨ts, fs⟩ := r
      have hrest := ih (fun q hq => hall q (by simp [hq]))
      simp only [parseMultiple, hp, hrest]
      simp [sourceTracks, hp]
  · intro p t ht
    simp only [sourceTracks] at ht
    split at ht
    · next ts fs heq =>
      obtain ⟨u, _, hu⟩ := List.mem_map.1 ht
      rw [← hu]
      rfl
    · simp at ht
  · intro buf ts fs h
    simp only [parse] at h
    cases hl : readLevels ⟨buf, 0⟩ 3 with
    | none => rw [hl] at h; exact absurd h (by simp)
    | some r =>
      cases r with
      | error e => rw [hl] at h; exact absurd h (by simp)
      | ok pr =>
        obtain ⟨levels, sE⟩ := pr
        rw [hl] at h
        simp only [Option.some.injEq, Except.ok.injEq] at h
        refine ⟨levels, sE, rfl, ?_, fun lv es => runEntries_fst buf lv es⟩
        have h1 : ts = (runLevels buf 0 levels).1 := by rw [h]
        rw [h1, runLevels_fst]

/-- C9 witness: two copies of the good source parse to the concatenation
of their stamped track lists in order, with no failures. -/
theorem c9_aggregator_order_witness :
    parseMultiple [("g", goodBuf), ("h", goodBuf)] =
      some (([("g", goodBuf), ("h", goodBuf)].map sourceTracks).flatten, []) :=
  c9_aggregator_order.1 [("g", goodBuf), ("h", goodBuf)] (by
    intro p hp
    simp only [List.mem_cons, List.not_mem_nil, or_false] at hp
    rcases hp with rfl | rfl
    · exact ⟨([trackA], []), by decide⟩
    · exact ⟨([trackA], []), by decide⟩)

end Gravity
